import Mathlib

/-!
Verification of the subsection-grade computation and the course-overview
signal handlers of the edx-platform excerpt.

The embedding follows `lms/djangoapps/grades/subsection_grade.py` and
`openedx/core/djangoapps/content/course_overviews/signals.py`.  Helpers
imported there from modules outside this excerpt (`xmodule.graders`,
`lms.djangoapps.grades.scores`, the `CourseOverview` model) are modelled
from the specification text and marked as such in their doc comments.

Numeric scores are embedded as rationals; block usage keys, course keys
and timestamps as natural numbers.
-/

/-- Score data held by one of the raw score sources (the submission store
or the courseware-student-module table). -/
structure SourceScore where
  earned : ℚ
  possible : ℚ
  first_attempted : Option Nat
deriving DecidableEq, Repr

/-- Modelled from the spec: a problem score records one scored unit with
its earned points, possible points, attempt state (the timestamp of first
attempt, when any), weight, and a flag distinguishing graded from
practice content.  The `ProblemScore` type itself lives in
`lms.djangoapps.grades.scores`, outside this excerpt. -/
structure ProblemScore where
  earned : ℚ
  possible : ℚ
  weight : Option ℚ
  raw_possible : ℚ
  graded : Bool
  first_attempted : Option Nat
deriving DecidableEq, Repr

/-- Modelled from the spec: an aggregated score (from `xmodule.graders`,
outside this excerpt) is the sum of earned and possible points across a
set of problem scores, with a graded flag and the timestamp of first
attempt across the set. -/
structure AggregatedScore where
  earned : ℚ
  possible : ℚ
  graded : Bool
  first_attempted : Option Nat
deriving DecidableEq, Repr

/-- Modelled from the spec: whether the aggregate was attempted, namely
whether a first-attempted timestamp is carried. -/
def AggregatedScore.attempted (a : AggregatedScore) : Bool :=
  a.first_attempted.isSome

/-- Scores that contribute to the all-problems aggregate: every problem
score of the subsection. -/
def allContributors (scores : List ProblemScore) : List ProblemScore :=
  scores

/-- Scores that contribute to the graded-only aggregate: the problem
scores flagged as graded. -/
def gradedContributors (scores : List ProblemScore) : List ProblemScore :=
  scores.filter (fun s => s.graded)

/-- Modelled from the spec: the timestamp of first attempt across a set
of problem scores, the earliest first-attempted timestamp present. -/
def firstAttemptedAcross (scores : List ProblemScore) : Option Nat :=
  scores.foldl
    (fun acc s =>
      match acc, s.first_attempted with
      | none, fa => fa
      | some a, none => some a
      | some a, some b => some (min a b))
    none

/-- Modelled from the spec: `graders.aggregate_scores` (from
`xmodule.graders`, outside this excerpt) sums scores into two aggregates,
the all-problems aggregate over every score and the graded-only aggregate
over the filtered subset of graded scores, both carrying the timestamp of
first attempt across the set. -/
def aggregate_scores (scores : List ProblemScore) :
    AggregatedScore × AggregatedScore :=
  let fa := firstAttemptedAcross scores
  (⟨((allContributors scores).map (fun s => s.earned)).sum,
    ((allContributors scores).map (fun s => s.possible)).sum,
    false, fa⟩,
   ⟨((gradedContributors scores).map (fun s => s.earned)).sum,
    ((gradedContributors scores).map (fun s => s.possible)).sum,
    true, fa⟩)

/-- A course block as the grade code reads it: its scorable flag
(`has_score`), graded flag, raw possible points (absent when the block
carries no score data) and weight. -/
structure Block where
  has_score : Bool
  graded : Bool
  raw_possible : Option ℚ
  weight : Option ℚ
deriving DecidableEq, Repr

/-- A persisted block record, as built by `_get_visible_blocks`:
location, weight, raw possible points and graded flag. -/
structure BlockRecord where
  locator : Nat
  weight : Option ℚ
  raw_possible : ℚ
  graded : Bool
deriving DecidableEq, Repr

/-- The course structure as the grade code uses it: indexing by block key
(a missing key raises `KeyError` in the source, embedded as `none`) and
the post-order traversal of possibly-scored blocks below a start node. -/
structure CourseStructure where
  blocks : Nat → Option Block
  post_order_traversal : Nat → List Nat

/-- Helper building a problem score from a raw source score and the
block it belongs to. -/
def scoreFromSource (s : SourceScore) (block : Block) : ProblemScore :=
  ⟨s.earned, s.possible, block.weight, s.possible, block.graded,
   s.first_attempted⟩

/-- Helper building an unattempted zero-earned problem score for a block
whose raw possible points are `p`. -/
def emptyScore (p : ℚ) (block : Block) : ProblemScore :=
  ⟨0, p, block.weight, p, block.graded, none⟩

/-- Modelled from the spec: `get_score` (from
`lms.djangoapps.grades.scores`, outside this excerpt) fetches the raw
score of a block from one of several score sources — the submission
store, the legacy courseware-student-module score table, or a persisted
snapshot — with that precedence; with every source empty it yields an
unattempted zero-earned score from the block itself, or `None` when the
block carries no possible points.  The call sites pass the per-block
lookups already applied. -/
def get_score (submissions_score csm_score : Option SourceScore)
    (persisted_block : Option BlockRecord) (block : Block) :
    Option ProblemScore :=
  match submissions_score with
  | some s => some (scoreFromSource s block)
  | none =>
    match csm_score with
    | some s => some (scoreFromSource s block)
    | none =>
      match persisted_block with
      | some pb => some (emptyScore pb.raw_possible block)
      | none => (block.raw_possible).map (fun p => emptyScore p block)

/-- Insertion into an ordered mapping with dict semantics: an existing
key keeps its position and gets the new value, a new key is appended. -/
def odInsert (d : List (Nat × ProblemScore)) (k : Nat) (v : ProblemScore) :
    List (Nat × ProblemScore) :=
  if d.any (fun p => p.1 = k) then
    d.map (fun p => if p.1 = k then (k, v) else p)
  else
    d ++ [(k, v)]

/-- Keys of an ordered mapping, in order. -/
def odKeys (d : List (Nat × ProblemScore)) : List Nat :=
  d.map (fun p => p.1)

/-- One step of the `problem_scores` builders: score the item and record
the score in the ordered mapping when one is produced. -/
def buildStep {α : Type} (keyOf : α → Nat)
    (scoreOf : α → Option ProblemScore)
    (d : List (Nat × ProblemScore)) (it : α) : List (Nat × ProblemScore) :=
  match scoreOf it with
  | some ps => odInsert d (keyOf it) ps
  | none => d

/-- Common shape of the three `problem_scores` builders: walk the items
in order, score each one, and record the scored ones in an ordered
mapping. -/
def buildScores {α : Type} (items : List α) (keyOf : α → Nat)
    (scoreOf : α → Option ProblemScore) : List (Nat × ProblemScore) :=
  items.foldl (buildStep keyOf scoreOf) []

/-- Embeds `NonZeroSubsectionGrade._compute_block_score`: look the block up in
the course structure (a missing key is the `except KeyError: pass`
branch, returning `None`), and score it when it is scorable. -/
def compute_block_score (block_key : Nat) (course_structure : CourseStructure)
    (submissions_scores csm_scores : Nat → Option SourceScore)
    (persisted_block : Option BlockRecord) : Option ProblemScore :=
  match course_structure.blocks block_key with
  | none => none
  | some block =>
    if block.has_score then
      get_score (submissions_scores block_key) (csm_scores block_key)
        persisted_block block
    else none

/-- Per-block body of `ZeroSubsectionGrade.problem_scores`: look the
block up in the structure (the source indexes directly, and the
traversal only yields keys of the structure; a missing key is embedded
as no score) and, when it has `has_score`, score it with every score
source empty. -/
def zeroScoreOf (course_structure : CourseStructure) (block_key : Nat) :
    Option ProblemScore :=
  match course_structure.blocks block_key with
  | none => none
  | some block =>
    if block.has_score then get_score none none none block
    else none

/-- Embeds `ZeroSubsectionGrade.problem_scores`: walk the possibly-scored blocks
below the subsection and record, for each block with `has_score`, the
score `get_score` yields from empty score sources. -/
def zero_problem_scores (course_structure : CourseStructure)
    (location : Nat) : List (Nat × ProblemScore) :=
  buildScores (course_structure.post_order_traversal location) id
    (zeroScoreOf course_structure)

/-- Embeds `CreateSubsectionGrade.__init__`: walk the possibly-scored blocks
below the subsection and record each block score `_compute_block_score`
yields. -/
def create_problem_scores (course_structure : CourseStructure)
    (location : Nat)
    (submissions_scores csm_scores : Nat → Option SourceScore) :
    List (Nat × ProblemScore) :=
  buildScores (course_structure.post_order_traversal location) id
    (fun block_key =>
      compute_block_score block_key course_structure submissions_scores
        csm_scores none)

/-- The persisted-grade record (`PersistentSubsectionGrade` row) a
`ReadSubsectionGrade` is built from. -/
structure GradeModel where
  earned_all : ℚ
  possible_all : ℚ
  earned_graded : ℚ
  possible_graded : ℚ
  first_attempted : Option Nat
  visible_blocks : List BlockRecord
deriving DecidableEq, Repr

/-- Embeds `ReadSubsectionGrade.problem_scores`: walk the stored visible blocks
of the record and record each block score `_compute_block_score` yields,
passing the stored block as the persisted snapshot. -/
def read_problem_scores (model : GradeModel)
    (course_structure : CourseStructure)
    (submissions_scores csm_scores : Nat → Option SourceScore) :
    List (Nat × ProblemScore) :=
  buildScores model.visible_blocks (fun b => b.locator)
    (fun b =>
      compute_block_score b.locator course_structure submissions_scores
        csm_scores (some b))

/-- A fully built subsection grade: location, the two aggregates and the
ordered problem-score mapping. -/
structure SubsectionGrade where
  location : Nat
  all_total : AggregatedScore
  graded_total : AggregatedScore
  problem_scores : List (Nat × ProblemScore)
deriving DecidableEq, Repr

/-- Embeds `NonZeroSubsectionGrade.percent_graded`: the graded earned points
over the graded possible points when the latter are positive, else 0. -/
def percent_graded (g : SubsectionGrade) : ℚ :=
  if g.graded_total.possible > 0 then
    g.graded_total.earned / g.graded_total.possible
  else 0

/-- Embeds `NonZeroSubsectionGrade.attempted_graded`: whether the graded-only
aggregate carries a first-attempted timestamp. -/
def attempted_graded (g : SubsectionGrade) : Bool :=
  g.graded_total.first_attempted.isSome

/-- Embeds `ZeroSubsectionGrade.attempted_graded`: constantly false. -/
def zero_attempted_graded : Bool := false

/-- Embeds `ZeroSubsectionGrade.percent_graded`: constantly 0. -/
def zero_percent_graded : ℚ := 0

/-- Embeds `ZeroSubsectionGrade` as a whole: aggregates computed by
`aggregate_scores` over the values of its problem-score mapping. -/
def zeroSubsectionGrade (course_structure : CourseStructure)
    (location : Nat) : SubsectionGrade :=
  let ps := zero_problem_scores course_structure location
  let agg := aggregate_scores (ps.map (fun kv => kv.2))
  ⟨location, agg.1, agg.2, ps⟩

/-- Embeds `CreateSubsectionGrade.__init__` as a whole: problem scores from the
traversal, aggregates by `aggregate_scores` over their values. -/
def createSubsectionGrade (course_structure : CourseStructure)
    (location : Nat)
    (submissions_scores csm_scores : Nat → Option SourceScore) :
    SubsectionGrade :=
  let ps := create_problem_scores course_structure location
    submissions_scores csm_scores
  let agg := aggregate_scores (ps.map (fun kv => kv.2))
  ⟨location, agg.1, agg.2, ps⟩

/-- Embeds `ReadSubsectionGrade.__init__` as a whole: both aggregates built
from the record fields, carrying the record first-attempted timestamp,
the all aggregate not graded and the graded aggregate graded; problem
scores rehydrated from the stored visible blocks. -/
def readSubsectionGrade (model : GradeModel)
    (course_structure : CourseStructure)
    (submissions_scores csm_scores : Nat → Option SourceScore) :
    SubsectionGrade :=
  { location := 0
    all_total := ⟨model.earned_all, model.possible_all, false,
      model.first_attempted⟩
    graded_total := ⟨model.earned_graded, model.possible_graded, true,
      model.first_attempted⟩
    problem_scores := read_problem_scores model course_structure
      submissions_scores csm_scores }

/-- Embeds `CreateSubsectionGrade._should_persist_per_attempted`: persist when
the all aggregate has a first-attempted timestamp or the score was just
deleted. -/
def should_persist_per_attempted (g : SubsectionGrade)
    (score_deleted : Bool) : Bool :=
  g.all_total.first_attempted.isSome || score_deleted

/-- The parameters `CreateSubsectionGrade._persisted_model_params`
passes to the model store. -/
structure PersistedModelParams where
  user_id : Nat
  usage_key : Nat
  earned_all : ℚ
  possible_all : ℚ
  earned_graded : ℚ
  possible_graded : ℚ
  visible_blocks : List BlockRecord
  first_attempted : Option Nat
deriving DecidableEq, Repr

/-- Embeds `CreateSubsectionGrade._get_visible_blocks`: one `BlockRecord` per
problem-score entry, in mapping order. -/
def get_visible_blocks (g : SubsectionGrade) : List BlockRecord :=
  g.problem_scores.map
    (fun kv => ⟨kv.1, kv.2.weight, kv.2.raw_possible, kv.2.graded⟩)

/-- Embeds `CreateSubsectionGrade._persisted_model_params`. -/
def persisted_model_params (g : SubsectionGrade) (student_id : Nat) :
    PersistedModelParams :=
  ⟨student_id, g.location,
   g.all_total.earned, g.all_total.possible,
   g.graded_total.earned, g.graded_total.possible,
   get_visible_blocks g, g.all_total.first_attempted⟩

/-- Embeds `CreateSubsectionGrade.update_or_create_model`: persist the grade to
the model store when `_should_persist_per_attempted` holds, else return
`None`. -/
def update_or_create_model (g : SubsectionGrade) (student_id : Nat)
    (score_deleted : Bool) : Option PersistedModelParams :=
  if should_persist_per_attempted g score_deleted then
    some (persisted_model_params g student_id)
  else none

/-- Embeds `SubsectionGradeBase.attempted`: assert that the all aggregate is
populated (the assertion failure embedded as an error), then report its
attempted flag. -/
def base_attempted (all_total : Option AggregatedScore) :
    Except String Bool :=
  match all_total with
  | none => .error "SubsectionGrade not fully populated yet.  Call init_from_structure or init_from_model before use."
  | some t => .ok t.attempted

/-- The cached course-overview snapshot as the signal handlers read it:
id, start date and self-paced flag. -/
structure CourseOverview where
  id : Nat
  start : Option Nat
  self_paced : Bool
deriving DecidableEq, Repr

/-- A narrower change event re-emitted after a publish. -/
inductive ChangeEvent : Type
  | start_date_changed (updated : CourseOverview)
      (previous_start_date : Option Nat)
  | pacing_changed (updated : CourseOverview) (previous_self_paced : Bool)
deriving DecidableEq, Repr

/-- Embeds `_check_for_course_date_changes`: emit `COURSE_START_DATE_CHANGED`
when the start fields differ. -/
def check_for_course_date_changes (previous updated : CourseOverview) :
    List ChangeEvent :=
  if previous.start ≠ updated.start then
    [ChangeEvent.start_date_changed updated previous.start]
  else []

/-- Embeds `_check_for_pacing_changes`: emit `COURSE_PACING_CHANGED` when the
self-paced fields differ. -/
def check_for_pacing_changes (previous updated : CourseOverview) :
    List ChangeEvent :=
  if previous.self_paced ≠ updated.self_paced then
    [ChangeEvent.pacing_changed updated previous.self_paced]
  else []

/-- Embeds `_check_for_course_changes`: with a previous overview, run both
field comparisons; with none, emit nothing. -/
def check_for_course_changes (previous : Option CourseOverview)
    (updated : CourseOverview) : List ChangeEvent :=
  match previous with
  | some p =>
    check_for_course_date_changes p updated ++
      check_for_pacing_changes p updated
  | none => []

/-- Embeds `_listen_for_course_publish`: fetch the previous cached overview for
the course key, load the updated one from the module store, and compare.
The cache and the module store are passed as lookups. -/
def listen_for_course_publish (cache : Nat → Option CourseOverview)
    (module_store : Nat → CourseOverview) (course_key : Nat) :
    List ChangeEvent :=
  check_for_course_changes (cache course_key) (module_store course_key)

/-- The overview table (`CourseOverview.objects`) as a list of rows. -/
structure OverviewStore where
  entries : List CourseOverview
deriving DecidableEq, Repr

/-- The course-about search index as the list of indexed course keys. -/
structure SearchIndex where
  items : List Nat
deriving DecidableEq, Repr

/-- Embeds `CourseAboutSearchIndexer.remove_deleted_items`: drop the course
entry from the course-about search index. -/
def remove_deleted_items (idx : SearchIndex) (course_key : Nat) :
    SearchIndex :=
  ⟨idx.items.filter (fun k => k ≠ course_key)⟩

/-- Embeds `_listen_for_course_delete`: delete the overview rows whose id is
the deleted course key, then remove the course from the search index. -/
def listen_for_course_delete (store : OverviewStore) (idx : SearchIndex)
    (course_key : Nat) : OverviewStore × SearchIndex :=
  (⟨store.entries.filter (fun o => o.id ≠ course_key)⟩,
   remove_deleted_items idx course_key)

/-- Concrete grade with a positive graded-possible total, used to
exercise the percent-graded rule. -/
def c1Grade : SubsectionGrade :=
  ⟨0, ⟨1, 2, false, none⟩, ⟨1, 2, true, none⟩, []⟩

/-- Concrete grade with a zero graded-possible total, used to exercise
the division guard. -/
def c1GradeZero : SubsectionGrade :=
  ⟨0, ⟨0, 0, false, none⟩, ⟨0, 0, true, none⟩, []⟩

/-- Concrete grade with no first-attempted timestamp, used to exercise
the persistence guard. -/
def c2Grade : SubsectionGrade :=
  ⟨3, ⟨0, 0, false, none⟩, ⟨0, 0, true, none⟩, []⟩

/-- Concrete course overview used to exercise the publish handler. -/
def c3Overview : CourseOverview := ⟨0, some 5, false⟩

/-- Concrete scorable graded block worth one point. -/
def c6Block : Block := ⟨true, true, some 1, none⟩

/-- Concrete one-block course structure whose only block is scorable. -/
def c6Structure : CourseStructure :=
  ⟨fun k => if k = 0 then some c6Block else none, fun _ => [0]⟩

/-- Concrete scorable graded block worth three points. -/
def c7Block : Block := ⟨true, true, some 3, none⟩

/-- Concrete stored block record pointing at key 5. -/
def c7Record : BlockRecord := ⟨5, none, 3, true⟩

/-- Concrete course structure holding the block at key 5. -/
def c7Structure : CourseStructure :=
  ⟨fun k => if k = 5 then some c7Block else none, fun _ => [5]⟩

/-- Concrete persisted grade record with one stored visible block. -/
def c7Model : GradeModel := ⟨0, 0, 0, 0, none, [c7Record]⟩

/-- Membership in the keys of an ordered mapping. -/
theorem mem_odKeys {d : List (Nat × ProblemScore)} {k : Nat} :
    k ∈ odKeys d ↔ ∃ p ∈ d, p.1 = k := by
  simp [odKeys]

/-- Inserting a fresh key appends the pair. -/
theorem odInsert_of_not_mem {d : List (Nat × ProblemScore)} {k : Nat}
    {v : ProblemScore} (h : k ∉ odKeys d) :
    odInsert d k v = d ++ [(k, v)] := by
  have hany : d.any (fun p => p.1 = k) = false := by
    rw [List.any_eq_false]
    intro p hp hpk
    exact h (mem_odKeys.mpr ⟨p, hp, by simpa using hpk⟩)
  simp [odInsert, hany]

/-- Inserting an existing key keeps the key list unchanged. -/
theorem odKeys_odInsert_of_mem {d : List (Nat × ProblemScore)} {k : Nat}
    {v : ProblemScore} (h : k ∈ odKeys d) :
    odKeys (odInsert d k v) = odKeys d := by
  have hany : d.any (fun p => p.1 = k) = true := by
    rw [List.any_eq_true]
    obtain ⟨p, hp, hpk⟩ := mem_odKeys.mp h
    exact ⟨p, hp, by simpa using hpk⟩
  simp only [odInsert, hany, if_true]
  unfold odKeys
  rw [List.map_map]
  apply List.map_congr_left
  intro p _
  simp only [Function.comp_apply]
  by_cases hpk : p.1 = k
  · rw [if_pos hpk]; exact hpk.symm
  · rw [if_neg hpk]

/-- Insertion preserves distinctness of the keys. -/
theorem odKeys_odInsert_nodup {d : List (Nat × ProblemScore)} {k : Nat}
    {v : ProblemScore} (h : (odKeys d).Nodup) :
    (odKeys (odInsert d k v)).Nodup := by
  by_cases hk : k ∈ odKeys d
  · rw [odKeys_odInsert_of_mem hk]; exact h
  · rw [odInsert_of_not_mem hk]
    unfold odKeys at h hk ⊢
    rw [List.map_append, List.nodup_append]
    refine ⟨h, by simp, ?_⟩
    intro a ha hb
    simp only [List.map_cons, List.map_nil, List.mem_singleton] at hb
    subst hb
    exact hk ha

/-- A member of an insertion is an old pair or the inserted pair. -/
theorem mem_odInsert {d : List (Nat × ProblemScore)} {k : Nat}
    {v kv : _} (h : kv ∈ odInsert d k v) : kv ∈ d ∨ kv = (k, v) := by
  unfold odInsert at h
  by_cases hany : d.any (fun p => p.1 = k) = true
  · rw [if_pos hany] at h
    obtain ⟨p, hp, hpe⟩ := List.mem_map.mp h
    by_cases hpk : p.1 = k
    · rw [if_pos hpk] at hpe
      exact Or.inr hpe.symm
    · rw [if_neg hpk] at hpe
      exact Or.inl (hpe ▸ hp)
  · rw [if_neg hany] at h
    rcases List.mem_append.mp h with h1 | h2
    · exact Or.inl h1
    · exact Or.inr (List.mem_singleton.mp h2)

/-- The builder fold keeps the mapping keys distinct. -/
theorem foldl_buildStep_keys_nodup {α : Type} (keyOf : α → Nat)
    (scoreOf : α → Option ProblemScore) :
    ∀ (items : List α) (acc : List (Nat × ProblemScore)),
      (odKeys acc).Nodup →
      (odKeys (items.foldl (buildStep keyOf scoreOf) acc)).Nodup := by
  intro items
  induction items with
  | nil => intro acc h; simpa using h
  | cons it items ih =>
    intro acc h
    rw [List.foldl_cons]
    apply ih
    unfold buildStep
    cases hs : scoreOf it
    · exact h
    · exact odKeys_odInsert_nodup h

/-- Keys of every built mapping are distinct, with no assumption on the
walked items. -/
theorem buildScores_keys_nodup {α : Type} (items : List α) (keyOf : α → Nat)
    (scoreOf : α → Option ProblemScore) :
    (odKeys (buildScores items keyOf scoreOf)).Nodup :=
  foldl_buildStep_keys_nodup keyOf scoreOf items [] (by simp [odKeys])

/-- With distinct item keys the builder fold is a plain ordered
collection of the scored items. -/
theorem foldl_buildStep_eq_filterMap {α : Type} (keyOf : α → Nat)
    (scoreOf : α → Option ProblemScore) :
    ∀ (items : List α) (acc : List (Nat × ProblemScore)),
      (items.map keyOf).Nodup →
      (∀ it ∈ items, keyOf it ∉ odKeys acc) →
      items.foldl (buildStep keyOf scoreOf) acc =
        acc ++ items.filterMap
          (fun it => (scoreOf it).map (fun ps => (keyOf it, ps))) := by
  intro items
  induction items with
  | nil => intro acc _ _; simp
  | cons it items ih =>
    intro acc hnd hdis
    rw [List.map_cons, List.nodup_cons] at hnd
    rw [List.foldl_cons]
    cases hs : scoreOf it with
    | none =>
      have hstep : buildStep keyOf scoreOf acc it = acc := by
        unfold buildStep; rw [hs]
      have hf : (it :: items).filterMap
          (fun x => (scoreOf x).map (fun q => (keyOf x, q))) =
          items.filterMap
            (fun x => (scoreOf x).map (fun q => (keyOf x, q))) := by
        simp [List.filterMap_cons, hs]
      rw [hstep, hf]
      exact ih acc hnd.2 (fun x hx => hdis x (List.mem_cons_of_mem _ hx))
    | some ps =>
      have hk : keyOf it ∉ odKeys acc := hdis it (List.mem_cons_self _ _)
      have hstep : buildStep keyOf scoreOf acc it =
          acc ++ [(keyOf it, ps)] := by
        unfold buildStep
        rw [hs]
        exact odInsert_of_not_mem hk
      have hdis2 : ∀ x ∈ items, keyOf x ∉ odKeys (acc ++ [(keyOf it, ps)]) := by
        intro x hx
        unfold odKeys
        rw [List.map_append]
        simp only [List.map_cons, List.map_nil, List.mem_append,
          List.mem_singleton]
        rintro (hmem | hxk)
        · exact hdis x (List.mem_cons_of_mem _ hx) hmem
        · exact hnd.1 (hxk ▸ List.mem_map_of_mem keyOf hx)
      have hf : (it :: items).filterMap
          (fun x => (scoreOf x).map (fun q => (keyOf x, q))) =
          (keyOf it, ps) :: items.filterMap
            (fun x => (scoreOf x).map (fun q => (keyOf x, q))) := by
        simp [List.filterMap_cons, hs]
      rw [hstep, hf, ih (acc ++ [(keyOf it, ps)]) hnd.2 hdis2]
      simp

/-- With distinct item keys the built mapping is the ordered collection
of the scored items. -/
theorem buildScores_eq_filterMap {α : Type} (items : List α)
    (keyOf : α → Nat) (scoreOf : α → Option ProblemScore)
    (hnd : (items.map keyOf).Nodup) :
    buildScores items keyOf scoreOf =
      items.filterMap
        (fun it => (scoreOf it).map (fun ps => (keyOf it, ps))) := by
  unfold buildScores
  rw [foldl_buildStep_eq_filterMap keyOf scoreOf items [] hnd
    (by simp [odKeys])]
  simp

/-- Keys of the ordered collection form a sublist of the item keys. -/
theorem odKeys_filterMap_sublist {α : Type} (keyOf : α → Nat)
    (scoreOf : α → Option ProblemScore) :
    ∀ items : List α,
      (odKeys (items.filterMap
        (fun it => (scoreOf it).map (fun ps => (keyOf it, ps))))).Sublist
        (items.map keyOf) := by
  intro items
  induction items with
  | nil => simp [odKeys]
  | cons it items ih =>
    cases hs : scoreOf it with
    | none =>
      simp only [List.filterMap_cons, hs, Option.map_none', List.map_cons]
      exact List.Sublist.cons _ ih
    | some ps =>
      simp only [List.filterMap_cons, hs, Option.map_some', List.map_cons,
        odKeys] at ih ⊢
      exact List.Sublist.cons₂ _ ih

/-- Membership in a built mapping with distinct item keys. -/
theorem mem_buildScores {α : Type} {items : List α} {keyOf : α → Nat}
    {scoreOf : α → Option ProblemScore}
    (hnd : (items.map keyOf).Nodup) {k : Nat} {ps : ProblemScore} :
    (k, ps) ∈ buildScores items keyOf scoreOf ↔
      ∃ it ∈ items, keyOf it = k ∧ scoreOf it = some ps := by
  rw [buildScores_eq_filterMap items keyOf scoreOf hnd, List.mem_filterMap]
  constructor
  · rintro ⟨it, hit, hf⟩
    rw [Option.map_eq_some'] at hf
    obtain ⟨q, hq, he⟩ := hf
    have h1 : keyOf it = k := congrArg Prod.fst he
    have h2 : q = ps := congrArg Prod.snd he
    exact ⟨it, hit, h1, h2 ▸ hq⟩
  · rintro ⟨it, hit, hk, hs⟩
    exact ⟨it, hit, by rw [hs, Option.map_some', hk]⟩

/-- Keys of a built mapping with distinct item keys keep the item
order. -/
theorem buildScores_keys_sublist {α : Type} (items : List α)
    (keyOf : α → Nat) (scoreOf : α → Option ProblemScore)
    (hnd : (items.map keyOf).Nodup) :
    (odKeys (buildScores items keyOf scoreOf)).Sublist (items.map keyOf) := by
  rw [buildScores_eq_filterMap items keyOf scoreOf hnd]
  exact odKeys_filterMap_sublist keyOf scoreOf items

/-- Every pair of a built mapping comes from a scored item. -/
theorem foldl_buildStep_forall {α : Type} (keyOf : α → Nat)
    (scoreOf : α → Option ProblemScore) (P : Nat × ProblemScore → Prop)
    (hP : ∀ it ps, scoreOf it = some ps → P (keyOf it, ps)) :
    ∀ (items : List α) (acc : List (Nat × ProblemScore)),
      (∀ kv ∈ acc, P kv) →
      ∀ kv ∈ items.foldl (buildStep keyOf scoreOf) acc, P kv := by
  intro items
  induction items with
  | nil => intro acc hacc kv hkv; exact hacc kv (by simpa using hkv)
  | cons it items ih =>
    intro acc hacc
    rw [List.foldl_cons]
    apply ih
    intro kv hkv
    revert hkv
    unfold buildStep
    cases hs : scoreOf it with
    | none => intro hkv; exact hacc kv hkv
    | some ps =>
      intro hkv
      rcases mem_odInsert hkv with hold | hnew
      · exact hacc kv hold
      · rw [hnew]
        exact hP it ps hs

/-- A score the zero grade records is an unattempted zero-earned
score. -/
theorem zeroScoreOf_eq_some {cs : CourseStructure} {key : Nat}
    {ps : ProblemScore} (h : zeroScoreOf cs key = some ps) :
    ps.earned = 0 ∧ ps.first_attempted = none := by
  unfold zeroScoreOf at h
  split at h
  · simp at h
  · rename_i block hb
    split at h
    · simp only [get_score] at h
      rw [Option.map_eq_some'] at h
      obtain ⟨p, hp, hps⟩ := h
      subst hps
      exact ⟨rfl, rfl⟩
    · simp at h

/-- Characterization of a block score: it exists exactly when the block
is in the structure, is scorable, and yields a score. -/
theorem compute_block_score_eq_some {block_key : Nat}
    {cs : CourseStructure} {sub csm : Nat → Option SourceScore}
    {pb : Option BlockRecord} {ps : ProblemScore} :
    compute_block_score block_key cs sub csm pb = some ps ↔
      ∃ block, cs.blocks block_key = some block ∧ block.has_score = true ∧
        get_score (sub block_key) (csm block_key) pb block = some ps := by
  constructor
  · intro h
    unfold compute_block_score at h
    split at h
    · simp at h
    · rename_i block hb
      split at h
      · rename_i hsc
        exact ⟨block, hb, hsc, h⟩
      · simp at h
  · rintro ⟨block, hb, hsc, hg⟩
    unfold compute_block_score
    simp only [hb]
    rw [if_pos hsc]
    exact hg

/-- C1: for every subsection grade with possibly non-zero values,
percent-graded is the graded earned total divided by the graded possible
total when the latter is positive, and 0 otherwise (so the division is
performed only behind the positivity guard); the zero-value variant
reports 0 outright. -/
theorem c1_percent_graded (g : SubsectionGrade) :
    (0 < g.graded_total.possible →
      percent_graded g * g.graded_total.possible = g.graded_total.earned) ∧
    (¬ 0 < g.graded_total.possible → percent_graded g = 0) ∧
    zero_percent_graded = 0 := by
  refine ⟨?_, ?_, rfl⟩
  · intro h
    unfold percent_graded
    rw [if_pos h]
    exact div_mul_cancel₀ _ h.ne'
  · intro h
    unfold percent_graded
    rw [if_neg h]

/-- Witness for C1 at a grade with positive graded-possible and at one
with zero graded-possible. -/
theorem c1_percent_graded_witness :
    percent_graded c1Grade * c1Grade.graded_total.possible =
        c1Grade.graded_total.earned ∧
    percent_graded c1GradeZero = 0 :=
  ⟨(c1_percent_graded c1Grade).1 (by norm_num [c1Grade]),
   (c1_percent_graded c1GradeZero).2.1 (by norm_num [c1GradeZero])⟩

/-- C2: a freshly computed grade is persisted exactly when the all-total
aggregate carries a first-attempted timestamp or the score was just
deleted, the persisted parameters carry its aggregates, and otherwise
nothing is persisted and `None` comes back. -/
theorem c2_update_or_create_model (g : SubsectionGrade) (student_id : Nat)
    (score_deleted : Bool) :
    (update_or_create_model g student_id score_deleted =
        some (persisted_model_params g student_id) ↔
      g.all_total.first_attempted ≠ none ∨ score_deleted = true) ∧
    (¬ (g.all_total.first_attempted ≠ none ∨ score_deleted = true) →
      update_or_create_model g student_id score_deleted = none) ∧
    (persisted_model_params g student_id).earned_all =
      g.all_total.earned ∧
    (persisted_model_params g student_id).possible_all =
      g.all_total.possible ∧
    (persisted_model_params g student_id).earned_graded =
      g.graded_total.earned ∧
    (persisted_model_params g student_id).possible_graded =
      g.graded_total.possible ∧
    (persisted_model_params g student_id).first_attempted =
      g.all_total.first_attempted := by
  have hcond : should_persist_per_attempted g score_deleted = true ↔
      g.all_total.first_attempted ≠ none ∨ score_deleted = true := by
    unfold should_persist_per_attempted
    rw [Bool.or_eq_true, Option.isSome_iff_ne_none]
  refine ⟨?_, ?_, rfl, rfl, rfl, rfl, rfl⟩
  · unfold update_or_create_model
    by_cases h : should_persist_per_attempted g score_deleted = true
    · rw [if_pos h]
      exact ⟨fun _ => hcond.mp h, fun _ => rfl⟩
    · rw [if_neg h]
      exact ⟨fun hn => absurd hn (by simp),
        fun hr => absurd (hcond.mpr hr) h⟩
  · intro hn
    unfold update_or_create_model
    rw [if_neg]
    intro h
    exact hn (hcond.mp h)

/-- Witness for C2 at a grade with no first attempt and no deletion:
nothing is persisted. -/
theorem c2_update_or_create_model_witness :
    update_or_create_model c2Grade 7 false = none :=
  (c2_update_or_create_model c2Grade 7 false).2.1 (by simp [c2Grade])

/-- C3: after a publish, a start-date-changed event is re-emitted exactly
when a previous cached overview existed and its start differs from the
updated one, a pacing-changed event exactly when a previous overview
existed and its self-paced flag differs, and with no previous overview no
narrower event is emitted. -/
theorem c3_listen_for_course_publish (cache : Nat → Option CourseOverview)
    (module_store : Nat → CourseOverview) (course_key : Nat) :
    ((∃ u ps, ChangeEvent.start_date_changed u ps ∈
        listen_for_course_publish cache module_store course_key) ↔
      ∃ p, cache course_key = some p ∧
        p.start ≠ (module_store course_key).start) ∧
    ((∃ u pb, ChangeEvent.pacing_changed u pb ∈
        listen_for_course_publish cache module_store course_key) ↔
      ∃ p, cache course_key = some p ∧
        p.self_paced ≠ (module_store course_key).self_paced) ∧
    (cache course_key = none →
      listen_for_course_publish cache module_store course_key = []) := by
  unfold listen_for_course_publish check_for_course_changes
  cases hc : cache course_key with
  | none => simp
  | some p =>
    unfold check_for_course_date_changes check_for_pacing_changes
    by_cases h1 : p.start = (module_store course_key).start <;>
      by_cases h2 : p.self_paced = (module_store course_key).self_paced <;>
        simp [h1, h2]

/-- Witness for C3 with an empty cache: the handler emits nothing. -/
theorem c3_listen_for_course_publish_witness :
    listen_for_course_publish (fun _ => none) (fun _ => c3Overview) 0 = [] :=
  (c3_listen_for_course_publish (fun _ => none) (fun _ => c3Overview) 0).2.2
    rfl

/-- C4: the two aggregates of a freshly computed grade and of a
zero-value grade are computed by `aggregate_scores` over the same
problem-score values, and the graded-only contributors are an
order-preserving sublist (hence a subset) of the all-total
contributors. -/
theorem c4_graded_subset_all (cs : CourseStructure) (loc : Nat)
    (sub csm : Nat → Option SourceScore) :
    (createSubsectionGrade cs loc sub csm).all_total =
      (aggregate_scores
        ((createSubsectionGrade cs loc sub csm).problem_scores.map
          (fun kv => kv.2))).1 ∧
    (createSubsectionGrade cs loc sub csm).graded_total =
      (aggregate_scores
        ((createSubsectionGrade cs loc sub csm).problem_scores.map
          (fun kv => kv.2))).2 ∧
    (gradedContributors
        ((createSubsectionGrade cs loc sub csm).problem_scores.map
          (fun kv => kv.2))).Sublist
      (allContributors
        ((createSubsectionGrade cs loc sub csm).problem_scores.map
          (fun kv => kv.2))) ∧
    (zeroSubsectionGrade cs loc).all_total =
      (aggregate_scores
        ((zeroSubsectionGrade cs loc).problem_scores.map
          (fun kv => kv.2))).1 ∧
    (zeroSubsectionGrade cs loc).graded_total =
      (aggregate_scores
        ((zeroSubsectionGrade cs loc).problem_scores.map
          (fun kv => kv.2))).2 ∧
    (gradedContributors
        ((zeroSubsectionGrade cs loc).problem_scores.map
          (fun kv => kv.2))).Sublist
      (allContributors
        ((zeroSubsectionGrade cs loc).problem_scores.map
          (fun kv => kv.2))) :=
  ⟨rfl, rfl, List.filter_sublist _, rfl, rfl, List.filter_sublist _⟩

/-- C5: deleting a course removes exactly the overview rows whose id is
the deleted key and exactly that course from the search index; every
other row and index entry is untouched. -/
theorem c5_listen_for_course_delete (store : OverviewStore)
    (idx : SearchIndex) (course_key : Nat) :
    (∀ o : CourseOverview,
      o ∈ (listen_for_course_delete store idx course_key).1.entries ↔
        o ∈ store.entries ∧ o.id ≠ course_key) ∧
    (∀ k : Nat,
      k ∈ (listen_for_course_delete store idx course_key).2.items ↔
        k ∈ idx.items ∧ k ≠ course_key) := by
  constructor <;> intro x <;>
    simp [listen_for_course_delete, remove_deleted_items, List.mem_filter]

/-- Insertion always makes the inserted pair a member. -/
theorem mem_odInsert_self (d : List (Nat × ProblemScore)) (k : Nat)
    (v : ProblemScore) : (k, v) ∈ odInsert d k v := by
  unfold odInsert
  by_cases hany : d.any (fun p => p.1 = k) = true
  · rw [if_pos hany]
    rw [List.any_eq_true] at hany
    obtain ⟨p, hp, hpk⟩ := hany
    have hpk2 : p.1 = k := by simpa using hpk
    refine List.mem_map.mpr ⟨p, hp, ?_⟩
    rw [if_pos hpk2]
  · rw [if_neg hany]
    exact List.mem_append.mpr (Or.inr (List.mem_singleton.mpr rfl))

/-- A member keeps its place under insertion at another key, or at the
same key with the same value. -/
theorem mem_odInsert_of_mem {d : List (Nat × ProblemScore)} {k : Nat}
    {v : ProblemScore} {kv : Nat × ProblemScore} (h : kv ∈ d)
    (hcase : kv.1 ≠ k ∨ kv = (k, v)) : kv ∈ odInsert d k v := by
  unfold odInsert
  by_cases hany : d.any (fun p => p.1 = k) = true
  · rw [if_pos hany]
    refine List.mem_map.mpr ⟨kv, h, ?_⟩
    rcases hcase with hne | heq
    · rw [if_neg hne]
    · simp [heq]
  · rw [if_neg hany]
    exact List.mem_append.mpr (Or.inl h)

/-- A pair scored by a keyed scoring function is in the built mapping as
soon as its key is among the remaining items or it is already recorded:
a later insertion at the same key re-inserts the same value, and an
insertion at another key leaves the pair in place. -/
theorem foldl_buildStep_mem (scoreOf : Nat → Option ProblemScore)
    {key : Nat} {ps : ProblemScore} (hs : scoreOf key = some ps) :
    ∀ (items : List Nat) (acc : List (Nat × ProblemScore)),
      ((key, ps) ∈ acc ∨ key ∈ items) →
      (key, ps) ∈ items.foldl (buildStep id scoreOf) acc := by
  intro items
  induction items with
  | nil =>
    intro acc h
    rcases h with h | h
    · simpa using h
    · exact absurd h (List.not_mem_nil key)
  | cons it items ih =>
    intro acc h
    rw [List.foldl_cons]
    rcases h with hmem | hkey
    · apply ih
      left
      unfold buildStep
      cases hv : scoreOf it with
      | none => exact hmem
      | some v =>
        refine mem_odInsert_of_mem hmem ?_
        by_cases hik : it = key
        · right
          subst hik
          rw [hs] at hv
          injection hv with hv2
          simp [hv2]
        · left
          exact fun he => hik he.symm
    · rcases List.mem_cons.mp hkey with rfl | hkey2
      · apply ih
        left
        unfold buildStep
        rw [hs]
        exact mem_odInsert_self acc key ps
      · exact ih (buildStep id scoreOf acc it) (Or.inr hkey2)

/-- When no item scores, the built mapping is empty. -/
theorem foldl_buildStep_nil (scoreOf : Nat → Option ProblemScore) :
    ∀ items : List Nat, (∀ it ∈ items, scoreOf it = none) →
      items.foldl (buildStep id scoreOf) [] = [] := by
  intro items
  induction items with
  | nil => intro _; rfl
  | cons it items ih =>
    intro h
    rw [List.foldl_cons]
    have hstep : buildStep id scoreOf [] it = [] := by
      unfold buildStep
      rw [h it (List.mem_cons_self _ _)]
    rw [hstep]
    exact ih (fun x hx => h x (List.mem_cons_of_mem _ hx))

/-- C6 counterexample: on a course with one scorable block the
zero-value grade records a (zero) score for it, so its problem-score
mapping is not empty. -/
theorem c6_zero_problem_scores_nonempty :
    zero_problem_scores c6Structure 0 ≠ [] := by decide

/-- C6 (amended): for every zero-value subsection grade, attempted-graded
is false and percent-graded is 0, every entry of its problem-score
mapping is an unattempted zero-earned score, the mapping covers each
scorable problem of the subsection (each traversed block present in the
structure, with `has_score`, whose empty-source score exists, appears
with that score), and the mapping is empty exactly when no traversed
block yields a score. -/
theorem c6_zero_subsection_grade (cs : CourseStructure) (loc : Nat) :
    zero_attempted_graded = false ∧ zero_percent_graded = 0 ∧
    (∀ kv ∈ zero_problem_scores cs loc,
      kv.2.earned = 0 ∧ kv.2.first_attempted = none) ∧
    (∀ key ∈ cs.post_order_traversal loc, ∀ block,
      cs.blocks key = some block → block.has_score = true →
      ∀ ps, get_score none none none block = some ps →
        (key, ps) ∈ zero_problem_scores cs loc) ∧
    (zero_problem_scores cs loc = [] ↔
      ∀ key ∈ cs.post_order_traversal loc, zeroScoreOf cs key = none) := by
  refine ⟨rfl, rfl, ?_, ?_, ?_⟩
  · unfold zero_problem_scores buildScores
    exact foldl_buildStep_forall id (zeroScoreOf cs)
      (fun kv => kv.2.earned = 0 ∧ kv.2.first_attempted = none)
      (fun key ps hs => zeroScoreOf_eq_some hs)
      (cs.post_order_traversal loc) [] (fun kv h => absurd h (by simp))
  · intro key hkey block hb hsc ps hg
    have hzs : zeroScoreOf cs key = some ps := by
      unfold zeroScoreOf
      simp only [hb]
      rw [if_pos hsc]
      exact hg
    unfold zero_problem_scores buildScores
    exact foldl_buildStep_mem (zeroScoreOf cs) hzs
      (cs.post_order_traversal loc) [] (Or.inr hkey)
  · constructor
    · intro hnil key hkey
      cases hzs : zeroScoreOf cs key with
      | none => rfl
      | some ps =>
        have hmem : (key, ps) ∈ zero_problem_scores cs loc := by
          unfold zero_problem_scores buildScores
          exact foldl_buildStep_mem (zeroScoreOf cs) hzs
            (cs.post_order_traversal loc) [] (Or.inr hkey)
        rw [hnil] at hmem
        exact absurd hmem (List.not_mem_nil _)
    · intro hall
      unfold zero_problem_scores buildScores
      exact foldl_buildStep_nil (zeroScoreOf cs)
        (cs.post_order_traversal loc) hall

/-- Witness for C6 at the one-block course: the scorable block is
covered by an entry, and that entry is an unattempted zero-earned
score. -/
theorem c6_zero_subsection_grade_witness :
    (0, emptyScore 1 c6Block) ∈ zero_problem_scores c6Structure 0 ∧
    (emptyScore 1 c6Block).earned = 0 ∧
    (emptyScore 1 c6Block).first_attempted = none :=
  ⟨(c6_zero_subsection_grade c6Structure 0).2.2.2.1 0 (by decide) c6Block
      (by decide) rfl (emptyScore 1 c6Block) (by decide),
   (c6_zero_subsection_grade c6Structure 0).2.2.1 (0, emptyScore 1 c6Block)
      (by decide)⟩

/-- C7: with distinct stored locators, a grade read from a persisted
record rehydrates exactly those stored blocks that still exist in the
current course structure, are scorable, and yield a score; a stored
locator absent from the structure contributes nothing (and raises no
error, the rehydration being total). -/
theorem c7_read_problem_scores (model : GradeModel)
    (cs : CourseStructure) (sub csm : Nat → Option SourceScore)
    (hnd : (model.visible_blocks.map (fun b => b.locator)).Nodup)
    (key : Nat) (ps : ProblemScore) :
    (key, ps) ∈ read_problem_scores model cs sub csm ↔
      ∃ b ∈ model.visible_blocks, b.locator = key ∧
        ∃ block, cs.blocks key = some block ∧ block.has_score = true ∧
          get_score (sub key) (csm key) (some b) block = some ps := by
  unfold read_problem_scores
  rw [mem_buildScores hnd]
  constructor
  · rintro ⟨b, hb, hk, hs⟩
    subst hk
    rw [compute_block_score_eq_some] at hs
    exact ⟨b, hb, rfl, hs⟩
  · rintro ⟨b, hb, hk, block, hblk, hsc, hg⟩
    subst hk
    exact ⟨b, hb, rfl,
      compute_block_score_eq_some.mpr ⟨block, hblk, hsc, hg⟩⟩

/-- Witness for C7: the stored block at key 5 still exists, is scorable
and yields its zero snapshot score, so it is rehydrated. -/
theorem c7_read_problem_scores_witness :
    (5, emptyScore 3 c7Block) ∈
      read_problem_scores c7Model c7Structure (fun _ => none)
        (fun _ => none) :=
  (c7_read_problem_scores c7Model c7Structure (fun _ => none)
      (fun _ => none) (by decide) 5 (emptyScore 3 c7Block)).mpr
    ⟨c7Record, by decide, rfl, c7Block, by decide, rfl, by decide⟩

/-- C8: for each grade variant, the problem-score mapping has distinct
keys unconditionally, and (with each traversal or stored-block sequence
listing each key once, as the course traversal and block records do) its
keys appear in traversal order for the computed and zero variants and in
stored-block order for the read variant. -/
theorem c8_problem_scores_ordered_unique (cs : CourseStructure) (loc : Nat)
    (sub csm : Nat → Option SourceScore) (model : GradeModel)
    (hc : (cs.post_order_traversal loc).Nodup)
    (hr : (model.visible_blocks.map (fun b => b.locator)).Nodup) :
    (odKeys (create_problem_scores cs loc sub csm)).Nodup ∧
    (odKeys (zero_problem_scores cs loc)).Nodup ∧
    (odKeys (read_problem_scores model cs sub csm)).Nodup ∧
    (odKeys (create_problem_scores cs loc sub csm)).Sublist
      (cs.post_order_traversal loc) ∧
    (odKeys (zero_problem_scores cs loc)).Sublist
      (cs.post_order_traversal loc) ∧
    (odKeys (read_problem_scores model cs sub csm)).Sublist
      (model.visible_blocks.map (fun b => b.locator)) := by
  refine ⟨buildScores_keys_nodup _ _ _, buildScores_keys_nodup _ _ _,
    buildScores_keys_nodup _ _ _, ?_, ?_, ?_⟩
  · have := buildScores_keys_sublist (cs.post_order_traversal loc) id
      (fun block_key =>
        compute_block_score block_key cs sub csm none)
      (by simpa using hc)
    simpa using this
  · have := buildScores_keys_sublist (cs.post_order_traversal loc) id
      (zeroScoreOf cs) (by simpa using hc)
    simpa using this
  · exact buildScores_keys_sublist model.visible_blocks
      (fun b => b.locator)
      (fun b =>
        compute_block_score b.locator cs sub csm (some b)) hr

/-- Witness for C8 at the concrete one-record model and one-block
structure. -/
theorem c8_problem_scores_ordered_unique_witness :
    (odKeys (create_problem_scores c7Structure 0 (fun _ => none)
      (fun _ => none))).Nodup :=
  (c8_problem_scores_ordered_unique c7Structure 0 (fun _ => none)
      (fun _ => none) c7Model (by decide) (by decide)).1

/-- C9: a grade read from a persisted record carries the record
first-attempted timestamp on both aggregates, the all aggregate not
graded and the graded aggregate graded, with the earned and possible
totals taken from the record fields. -/
theorem c9_read_subsection_grade_totals (model : GradeModel)
    (cs : CourseStructure) (sub csm : Nat → Option SourceScore) :
    (readSubsectionGrade model cs sub csm).all_total.first_attempted =
        model.first_attempted ∧
    (readSubsectionGrade model cs sub csm).graded_total.first_attempted =
        model.first_attempted ∧
    (readSubsectionGrade model cs sub csm).all_total.graded = false ∧
    (readSubsectionGrade model cs sub csm).graded_total.graded = true ∧
    (readSubsectionGrade model cs sub csm).all_total.earned =
        model.earned_all ∧
    (readSubsectionGrade model cs sub csm).all_total.possible =
        model.possible_all ∧
    (readSubsectionGrade model cs sub csm).graded_total.earned =
        model.earned_graded ∧
    (readSubsectionGrade model cs sub csm).graded_total.possible =
        model.possible_graded :=
  ⟨rfl, rfl, rfl, rfl, rfl, rfl, rfl, rfl⟩

/-- C10: reading the attempted property with an unpopulated all-total
fails the assertion (an error, never a value), while every grade built by
the zero, create or read constructor carries an actual all-total
aggregate, under which the property returns its attempted flag and the
assertion branch is unreachable. -/
theorem c10_base_attempted (cs : CourseStructure) (loc : Nat)
    (sub csm : Nat → Option SourceScore) (model : GradeModel)
    (t : AggregatedScore) :
    (∃ e, base_attempted none = Except.error e) ∧
    base_attempted (some t) = Except.ok t.attempted ∧
    base_attempted (some (zeroSubsectionGrade cs loc).all_total) =
      Except.ok (zeroSubsectionGrade cs loc).all_total.attempted ∧
    base_attempted (some (createSubsectionGrade cs loc sub csm).all_total) =
      Except.ok
        (createSubsectionGrade cs loc sub csm).all_total.attempted ∧
    base_attempted (some (readSubsectionGrade model cs sub csm).all_total) =
      Except.ok (readSubsectionGrade model cs sub csm).all_total.attempted :=
  ⟨⟨_, rfl⟩, rfl, rfl, rfl, rfl⟩
